import Mathlib

/-!
Verification of the memory-assembly core of the LLM-Agent repository
(`src/model.py`): token-budgeted windowing, the FAISS-backed semantic
Q&A store, the retention heuristic, and the prompt assembler.

Modelling conventions:
* A chat message (`Turn` in the spec, a `{"role": ..., "content": ...}`
  dict in the code) is the structure `Msg`.
* The tiktoken tokenizer (`count_tokens`) is an external capability; the
  selectors are parameterised over an arbitrary token counter
  `tok : String → ℕ`, exactly as they only ever call `count_tokens` on
  rendered text.  Likewise `embed_text` (OpenAI embeddings) is a
  parameter `embed : String → List ℚ`.
* Embedding vectors are `List ℚ`.  The Python code stores L2-normalised
  float32 vectors in a `faiss.IndexFlatIP` and ranks by inner product;
  since the normalising factor `1/‖v‖` is irrational, the model keeps the
  raw vectors and compares exact cosine similarities
  `⟪q,u⟫ / (‖q‖·‖u‖)` instead, encoded without square roots by comparing
  signs and squared cross-products.  Ranking by inner product of
  normalised vectors and ranking by cosine similarity coincide
  (`faiss.normalize_L2` leaves an all-zero vector unchanged, which the
  encoding also reproduces: a zero vector has similarity 0 to
  everything).  Ties are resolved by insertion order (a stable sort),
  matching index order of the sequential scan.
* `faiss.IndexFlatIP.add`/`search` raise on a dimension mismatch with the
  dimension fixed at index creation; fallible operations return `Option`
  (`none` = exception propagated to the caller).
-/

namespace LLMAgent

/-- One chat message: `{"role": r, "content": c}`. -/
structure Msg where
  role : String
  content : String
deriving DecidableEq, Repr

/-- `count_tokens` applied to one message rendered as `f"{role}: {content}\n"`,
as `count_message_list_tokens` does per element (src/model.py:95-105).
`tok` stands for the external tiktoken-based `count_tokens`. -/
def message_tokens (tok : String → ℕ) (m : Msg) : ℕ :=
  tok (m.role ++ ": " ++ m.content ++ "\n")

/-- `count_message_list_tokens` (src/model.py:95-105): sum of the per-message
rendered token counts. -/
def count_message_list_tokens (tok : String → ℕ) (msgs : List Msg) : ℕ :=
  (msgs.map (message_tokens tok)).sum

/-- The newest-to-oldest scanning loop of
`select_recent_messages_within_budget` (src/model.py:116-127): the input
list is the history already reversed; `total` is the running token total;
the `break` on overflow ends the selection. -/
def selectRecentAux (tok : String → ℕ) (maxTokens : ℕ) :
    List Msg → ℕ → List Msg
  | [], _ => []
  | m :: rest, total =>
      if total + message_tokens tok m > maxTokens then []
      else m :: selectRecentAux tok maxTokens rest (total + message_tokens tok m)

/-- `select_recent_messages_within_budget` (src/model.py:108-129): traverse
history newest-to-oldest accumulating token cost, stop at the first
overflow, then reverse back to chronological order.  The Python body also
copies each kept dict down to `role`/`content`; `Msg` has exactly those
fields, so the copy is the identity here. -/
def select_recent_messages_within_budget (tok : String → ℕ)
    (history : List Msg) (maxTokens : ℕ) : List Msg :=
  (selectRecentAux tok maxTokens history.reverse 0).reverse

/-- Token cost of one retrieved pair rendered as `f"Q: {q}\nA: {a}\n"`
(src/model.py:144-145). -/
def pair_tokens (tok : String → ℕ) (p : String × String) : ℕ :=
  tok ("Q: " ++ p.1 ++ "\nA: " ++ p.2 ++ "\n")

/-- The scanning loop of `select_vector_qa_within_budget`
(src/model.py:139-149), with running token total `total`; the `break` on
overflow ends the selection. -/
def selectVectorAux (tok : String → ℕ) (maxTokens : ℕ) :
    List (String × String) → ℕ → List (String × String)
  | [], _ => []
  | p :: rest, total =>
      if total + pair_tokens tok p > maxTokens then []
      else p :: selectVectorAux tok maxTokens rest (total + pair_tokens tok p)

/-- `select_vector_qa_within_budget` (src/model.py:132-151): scan the ranked
pairs in their given order, accumulate the rendered cost, stop at the first
pair that would overflow the budget. -/
def select_vector_qa_within_budget (tok : String → ℕ)
    (qa_pairs : List (String × String)) (maxTokens : ℕ) : List (String × String) :=
  selectVectorAux tok maxTokens qa_pairs 0

/-- Python `str.strip()`: drop leading and trailing whitespace. -/
def pyStrip (s : String) : String :=
  ⟨((s.data.dropWhile Char.isWhitespace).reverse.dropWhile Char.isWhitespace).reverse⟩

/-- Python `str.lower()` (the heuristic's inputs are ASCII; per-character
lowercasing). -/
def pyLower (s : String) : String :=
  ⟨s.data.map Char.toLower⟩

/-- `cs` starts with the character sequence `p` (Python `str.startswith`). -/
def startsWithChars : List Char → List Char → Bool
  | _, [] => true
  | [], _ :: _ => false
  | c :: cs, p :: ps => c = p && startsWithChars cs ps

/-- Python `str.startswith(p)`. -/
def pyStartsWith (s p : String) : Bool :=
  startsWithChars s.data p.data

/-- Word-counting scan: `inWord` records whether the previous character was
part of a word. -/
def pyWordsAux : List Char → Bool → ℕ
  | [], _ => 0
  | c :: rest, inWord =>
      if Char.isWhitespace c then pyWordsAux rest false
      else (if inWord then 0 else 1) + pyWordsAux rest true

/-- Python `str.split()` word count: number of maximal nonempty runs of
non-whitespace characters (`len(s.split())` in src/model.py:184). -/
def pyWordCount (s : String) : ℕ :=
  pyWordsAux s.data false

/-- The fixed small-talk marker set of `should_store_in_vector_memory`
(src/model.py:176-179). -/
def small_talk_markers : List String :=
  ["hi", "hello", "hey", "good morning", "good evening",
   "thanks", "thank you", "ok", "okay", "bye", "goodbye"]

/-- `should_store_in_vector_memory` (src/model.py:165-187): reject if the
trimmed, lowercased question starts with a small-talk marker; reject if the
question has fewer than 4 whitespace-delimited words or the answer fewer
than 6; otherwise accept. -/
def should_store_in_vector_memory (question answer : String) : Bool :=
  let qLower := pyLower (pyStrip question)
  if small_talk_markers.any (fun p => pyStartsWith qLower p) then false
  else if pyWordCount question < 4 || pyWordCount answer < 6 then false
  else true

/-- Inner product of two rational vectors. -/
def dotQ (u v : List ℚ) : ℚ :=
  (List.zipWith (· * ·) u v).sum

/-- Squared Euclidean norm. -/
def normSq (u : List ℚ) : ℚ :=
  dotQ u u

/-- Decides `a/√p ≥ b/√r` for `p, r ≥ 0` without square roots, with the
convention that a value with zero squared norm is 0 (an all-zero vector is
left unchanged by `faiss.normalize_L2`, so its inner product with any
query is 0).  Used to compare cosine similarities `⟪q,u⟫/(‖q‖‖u‖)` after
the common positive factor `1/‖q‖` is cancelled: `a = ⟪q,u⟫`, `p = ‖u‖²`. -/
def simGe (a p b r : ℚ) : Bool :=
  let A := if p = 0 then 0 else a
  let B := if r = 0 then 0 else b
  let p' := if p = 0 then 1 else p
  let r' := if r = 0 then 1 else r
  if B < 0 then
    if 0 ≤ A then true else decide (A ^ 2 * r' ≤ B ^ 2 * p')
  else
    if A < 0 then false else decide (B ^ 2 * p' ≤ A ^ 2 * r')

/-- Decides `cos(q,u) ≥ cos(q,v)`: the ranking relation realised by
storing L2-normalised vectors in `faiss.IndexFlatIP` and ordering by
inner product (src/model.py:57-75).  A zero query has similarity 0 to
everything, so all comparisons hold. -/
def cosSimGe (q u v : List ℚ) : Bool :=
  if normSq q = 0 then true
  else simGe (dotQ q u) (normSq u) (dotQ q v) (normSq v)

/-- State of `FaissQAVectorStore` (src/model.py:41-82): the parallel
`_questions`/`_answers` lists, the vectors held by the faiss index
(`index.ntotal = index.length`), and the index dimension, `none` before
the first `add` (`_index is None`). -/
structure FaissQAVectorStore where
  questions : List String
  answers : List String
  index : List (List ℚ)
  dim : Option ℕ
deriving DecidableEq, Repr

/-- The freshly constructed store (src/model.py:43-47). -/
def FaissQAVectorStore.empty : FaissQAVectorStore :=
  ⟨[], [], [], none⟩

/-- `FaissQAVectorStore.add` (src/model.py:49-62): on the first entry the
index is created with the embedding's length as its fixed dimension;
afterwards `faiss.IndexFlatIP.add` raises on any embedding of a different
length (modelled as `none`), before the text lists are touched.  The
vector is stored L2-normalised; the model keeps the raw vector and
compensates in the search ranking (see `cosSimGe`). -/
def FaissQAVectorStore.add (s : FaissQAVectorStore) (question answer : String)
    (embedding : List ℚ) : Option FaissQAVectorStore :=
  match s.dim with
  | none =>
      some { questions := s.questions ++ [question]
             answers := s.answers ++ [answer]
             index := s.index ++ [embedding]
             dim := some embedding.length }
  | some d =>
      if embedding.length = d then
        some { questions := s.questions ++ [question]
               answers := s.answers ++ [answer]
               index := s.index ++ [embedding]
               dim := some d }
      else none

/-- `FaissQAVectorStore.is_empty` (src/model.py:64-65):
`_index is None or _index.ntotal == 0`. -/
def FaissQAVectorStore.is_empty (s : FaissQAVectorStore) : Bool :=
  s.dim.isNone || s.index.isEmpty

/-- The stored vectors paired with their `(question, answer)` texts, in
insertion order: position `i` of the faiss index maps to
`(_questions[i], _answers[i])` (src/model.py:77-81). -/
def FaissQAVectorStore.entries (s : FaissQAVectorStore) :
    List (List ℚ × (String × String)) :=
  s.index.zip (s.questions.zip s.answers)

/-- `FaissQAVectorStore.search` (src/model.py:67-82): empty store returns
`[]`; otherwise the query is normalised and the
`k = min(top_k, ntotal)` nearest neighbours by inner product are mapped
back to their `(question, answer)` texts.  `faiss` raises on a query of
the wrong dimension (`none`).  Ranking is modelled as a stable sort by
exact cosine similarity, ties kept in insertion order. -/
def FaissQAVectorStore.search (s : FaissQAVectorStore) (query : List ℚ)
    (top_k : ℕ) : Option (List (String × String)) :=
  if s.is_empty then some []
  else
    match s.dim with
    | none => none
    | some d =>
        if query.length = d then
          some ((List.take (min top_k s.index.length)
            (List.insertionSort (fun x y => cosSimGe query x.1 y.1 = true)
              s.entries)).map (·.2))
        else none

/-- The store states reachable from the fresh store by successful `add`
calls (`search` never mutates). -/
inductive Reachable : FaissQAVectorStore → Prop
  | init : Reachable FaissQAVectorStore.empty
  | add {s s' : FaissQAVectorStore} {q a : String} {e : List ℚ} :
      Reachable s → s.add q a e = some s' → Reachable s'

/-- `SYSTEM_INSTRUCTION` (src/model.py:192-196). -/
def SYSTEM_INSTRUCTION : String :=
  "You are a concise, helpful QA assistant. " ++
  "Answer the user's question clearly and accurately. " ++
  "If you are unsure, say that you don't know."

/-- `MAX_HISTORY_TOKENS` (src/model.py:30). -/
def MAX_HISTORY_TOKENS : ℕ := 1200

/-- `MAX_VECTOR_QA_TOKENS` (src/model.py:31). -/
def MAX_VECTOR_QA_TOKENS : ℕ := 800

/-- `build_vector_memory_context` (src/model.py:203-213): empty store →
no context; otherwise embed the question, retrieve the top 5, and trim to
the retrieved-context budget.  A failing `search` propagates. -/
def build_vector_memory_context (tok : String → ℕ) (embed : String → List ℚ)
    (store : FaissQAVectorStore) (question : String) :
    Option (List (String × String)) :=
  if store.is_empty then some []
  else
    (store.search (embed question) 5).map
      (fun retrieved => select_vector_qa_within_budget tok retrieved MAX_VECTOR_QA_TOKENS)

/-- The `Q{idx}:`/`A{idx}:` lines with a blank line after each pair,
`enumerate(qa_context, start=1)` (src/model.py:238-241). -/
def renderQALines : ℕ → List (String × String) → List String
  | _, [] => []
  | i, p :: rest =>
      ("Q" ++ toString i ++ ": " ++ p.1) ::
      ("A" ++ toString i ++ ": " ++ p.2) :: "" ::
      renderQALines (i + 1) rest

/-- The retrieved-context system message content:
`"\n".join(qa_text_lines).strip()` (src/model.py:237-245). -/
def renderQAContext (qa : List (String × String)) : String :=
  pyStrip (String.intercalate "\n"
    ("Here are some relevant previous Q&A you have given:" :: renderQALines 1 qa))

/-- `build_messages_for_model` (src/model.py:216-259): system instruction,
then the retrieved-context system message if any pairs survived the trim,
then the token-trimmed recent history, then the question as the final user
message.  `getMessages` stands for `database.get_messages` via
`get_chat_history`; a failure inside the semantic retrieval propagates. -/
def build_messages_for_model (tok : String → ℕ) (embed : String → List ℚ)
    (getMessages : String → List Msg) (store : FaissQAVectorStore)
    (conversation_id question : String) : Option (List Msg) :=
  match build_vector_memory_context tok embed store question with
  | none => none
  | some qaContext =>
      some ((if qaContext.isEmpty then
              [⟨"system", SYSTEM_INSTRUCTION⟩]
            else
              [⟨"system", SYSTEM_INSTRUCTION⟩] ++
                [⟨"system", renderQAContext qaContext⟩]) ++
        select_recent_messages_within_budget tok (getMessages conversation_id)
          MAX_HISTORY_TOKENS ++
        [⟨"user", question⟩])

/-- `database.add_message` as seen from this core (spec §6 `persist`):
append one turn under the conversation identifier, lazily creating the
conversation. -/
def add_message (db : String → List Msg) (conversation_id role content : String) :
    String → List Msg :=
  fun c => if c = conversation_id then db c ++ [⟨role, content⟩] else db c

/-- `update_memories_after_response` (src/model.py:272-289): persist the
question then the answer as two turns, then, if the retention heuristic
accepts, embed the question and add to the vector store (whose `add` may
fail on a dimension mismatch — the database writes are already done and
are not rolled back; `none` models that propagated exception). -/
def update_memories_after_response (embed : String → List ℚ)
    (db : String → List Msg) (store : FaissQAVectorStore)
    (conversation_id question answer : String) :
    (String → List Msg) × Option FaissQAVectorStore :=
  let db1 := add_message db conversation_id "user" question
  let db2 := add_message db1 conversation_id "assistant" answer
  (db2,
    if should_store_in_vector_memory question answer then
      store.add question answer (embed question)
    else some store)

/-! ## Helper lemmas -/

lemma selectRecentAux_isPrefixOf (tok : String → ℕ) (maxT : ℕ) :
    ∀ (l : List Msg) (t : ℕ), selectRecentAux tok maxT l t <+: l := by
  intro l
  induction l with
  | nil => intro t; simp [selectRecentAux]
  | cons m rest ih =>
      intro t
      unfold selectRecentAux
      split
      · exact List.nil_prefix
      · exact List.cons_prefix_cons.mpr ⟨rfl, ih _⟩

lemma selectRecentAux_full (tok : String → ℕ) (maxT : ℕ) :
    ∀ (l : List Msg) (t : ℕ),
      t + (l.map (message_tokens tok)).sum ≤ maxT →
      selectRecentAux tok maxT l t = l := by
  intro l
  induction l with
  | nil => intro t _; rfl
  | cons m rest ih =>
      intro t h
      simp only [List.map_cons, List.sum_cons] at h
      unfold selectRecentAux
      rw [if_neg (by omega)]
      exact congrArg (m :: ·) (ih (t + message_tokens tok m) (by omega))

lemma selectVectorAux_isPrefixOf (tok : String → ℕ) (maxT : ℕ) :
    ∀ (l : List (String × String)) (t : ℕ), selectVectorAux tok maxT l t <+: l := by
  intro l
  induction l with
  | nil => intro t; simp [selectVectorAux]
  | cons p rest ih =>
      intro t
      unfold selectVectorAux
      split
      · exact List.nil_prefix
      · exact List.cons_prefix_cons.mpr ⟨rfl, ih _⟩

lemma selectVectorAux_cons (tok : String → ℕ) (maxT : ℕ)
    (p : String × String) (rest : List (String × String)) (t : ℕ) :
    selectVectorAux tok maxT (p :: rest) t =
      if t + pair_tokens tok p > maxT then []
      else p :: selectVectorAux tok maxT rest (t + pair_tokens tok p) := rfl

lemma selectVectorAux_idem (tok : String → ℕ) (maxT : ℕ) :
    ∀ (l : List (String × String)) (t : ℕ),
      selectVectorAux tok maxT (selectVectorAux tok maxT l t) t =
        selectVectorAux tok maxT l t := by
  intro l
  induction l with
  | nil => intro t; rfl
  | cons p rest ih =>
      intro t
      rw [selectVectorAux_cons]
      by_cases hc : t + pair_tokens tok p > maxT
      · rw [if_pos hc]; rfl
      · rw [if_neg hc, selectVectorAux_cons, if_neg hc, ih]

/-! ## Claim theorems -/

/-- C2: `select_recent_messages_within_budget H B` is a contiguous suffix
of `H`; if `B` covers the token cost of all of `H` the result is `H`
itself; if `B` is below the cost of the single most recent turn the result
is empty (the oversized most recent turn is dropped whole, never
truncated). -/
theorem C2_select_recent_window (tok : String → ℕ) (H : List Msg) (B : ℕ) :
    select_recent_messages_within_budget tok H B <:+ H ∧
    (count_message_list_tokens tok H ≤ B →
      select_recent_messages_within_budget tok H B = H) ∧
    (∀ m : Msg, H.getLast? = some m → B < message_tokens tok m →
      select_recent_messages_within_budget tok H B = []) := by
  refine ⟨?_, ?_, ?_⟩
  · have h := selectRecentAux_isPrefixOf tok B H.reverse 0
    have h2 : (selectRecentAux tok B H.reverse 0).reverse.reverse <+: H.reverse := by
      simpa using h
    simpa using List.reverse_prefix.mp h2
  · intro hB
    unfold select_recent_messages_within_budget
    rw [selectRecentAux_full tok B H.reverse 0
      (by simpa [count_message_list_tokens, List.sum_reverse] using hB)]
    exact List.reverse_reverse H
  · intro m hm hB
    unfold select_recent_messages_within_budget
    have hrev : H.reverse.head? = some m := by rw [List.head?_reverse]; exact hm
    cases hr : H.reverse with
    | nil => rw [hr] at hrev; simp at hrev
    | cons m' rest =>
        rw [hr] at hrev
        simp only [List.head?_cons, Option.some.injEq] at hrev
        rw [← hrev] at hB
        unfold selectRecentAux
        rw [if_pos (by omega)]
        rfl

/-- C2 witness: on a concrete two-message history whose total cost fits
the budget, the selector returns the history unchanged. -/
theorem C2_select_recent_window_witness :
    select_recent_messages_within_budget String.length
      [⟨"user", "What is 2+2?"⟩, ⟨"assistant", "4"⟩] 100 =
      [⟨"user", "What is 2+2?"⟩, ⟨"assistant", "4"⟩] :=
  (C2_select_recent_window String.length
    [⟨"user", "What is 2+2?"⟩, ⟨"assistant", "4"⟩] 100).2.1 (by decide)

/-- C8: `select_vector_qa_within_budget P B` is a contiguous prefix of the
ranked pair list `P`, and the operation is idempotent: re-applying it to
its own output with the same budget returns that output unchanged. -/
theorem C8_select_vector_qa_prefix_idempotent (tok : String → ℕ)
    (P : List (String × String)) (B : ℕ) :
    select_vector_qa_within_budget tok P B <+: P ∧
    select_vector_qa_within_budget tok (select_vector_qa_within_budget tok P B) B =
      select_vector_qa_within_budget tok P B :=
  ⟨selectVectorAux_isPrefixOf tok B P 0, selectVectorAux_idem tok B P 0⟩

/-- C4: the retention heuristic rejects exactly the exchanges whose
trimmed lowercased question starts with a small-talk marker, or whose
question has fewer than 4 whitespace-delimited words, or whose answer has
fewer than 6; on the spec's three examples it returns false, true, false. -/
theorem C4_retention_heuristic :
    (∀ question answer : String,
      should_store_in_vector_memory question answer = false ↔
        (small_talk_markers.any
            (fun p => pyStartsWith (pyLower (pyStrip question)) p) = true ∨
          pyWordCount question < 4 ∨ pyWordCount answer < 6)) ∧
    should_store_in_vector_memory "Hi" "Hello!" = false ∧
    should_store_in_vector_memory "What is machine learning and how does it work?"
      "Machine learning is a subset of AI that enables systems to learn from data." = true ∧
    should_store_in_vector_memory "ok" "Great, glad that helped a lot today" = false := by
  refine ⟨?_, by decide, by decide, by decide⟩
  intro question answer
  unfold should_store_in_vector_memory
  by_cases h1 : small_talk_markers.any
      (fun p => pyStartsWith (pyLower (pyStrip question)) p) = true
  · simp [h1]
  · simp only [h1, Bool.false_eq_true, if_false]
    by_cases h2 : pyWordCount question < 4 ∨ pyWordCount answer < 6
    · rw [if_pos (by simpa [decide_eq_true_eq] using h2)]
      simp [h1, h2]
    · rw [if_neg (by simpa [decide_eq_true_eq] using h2)]
      simp [h1, h2]

/-- C10: the small-talk rejection is a raw character-prefix test on the
trimmed lowercased question, not a word-boundary test: whenever that
string starts with one of the fixed markers, the heuristic returns false
for every answer, regardless of either word count. -/
theorem C10_small_talk_raw_character_test (question answer : String)
    (h : small_talk_markers.any
      (fun p => pyStartsWith (pyLower (pyStrip question)) p) = true) :
    should_store_in_vector_memory question answer = false := by
  unfold should_store_in_vector_memory
  simp [h]

/-- C10 witness: "History of Rome, please explain briefly?" begins with
the marker "hi" after trimming and lowercasing, so it is rejected even
though the question has 6 words and the answer has 12. -/
theorem C10_small_talk_raw_character_test_witness :
    pyWordCount "History of Rome, please explain briefly?" = 6 ∧
    pyWordCount "Rome was founded in 753 BC and grew over many centuries of conquest." = 13 ∧
    should_store_in_vector_memory "History of Rome, please explain briefly?"
      "Rome was founded in 753 BC and grew over many centuries of conquest." = false :=
  ⟨by decide, by decide,
    C10_small_talk_raw_character_test "History of Rome, please explain briefly?"
      "Rome was founded in 753 BC and grew over many centuries of conquest." (by decide)⟩

lemma add_some_shape {s s' : FaissQAVectorStore} {q a : String} {e : List ℚ}
    (h : s.add q a e = some s') :
    s'.questions = s.questions ++ [q] ∧ s'.answers = s.answers ++ [a] ∧
      s'.index = s.index ++ [e] := by
  unfold FaissQAVectorStore.add at h
  split at h
  · cases h; exact ⟨rfl, rfl, rfl⟩
  · split at h
    · cases h; exact ⟨rfl, rfl, rfl⟩
    · cases h

/-- C5: in every reachable store state the faiss index size equals the
number of stored questions and answers, and every pair returned by a
search is one of the stored (question, answer) pairs. -/
theorem C5_index_text_parallel_invariant (s : FaissQAVectorStore)
    (h : Reachable s) :
    (s.index.length = s.questions.length ∧
      s.questions.length = s.answers.length) ∧
    (∀ (q : List ℚ) (k : ℕ) (res : List (String × String)),
      s.search q k = some res → ∀ p ∈ res, p ∈ s.questions.zip s.answers) := by
  constructor
  · induction h with
    | init => exact ⟨rfl, rfl⟩
    | add _ hadd ih =>
        obtain ⟨hq, ha, hi⟩ := add_some_shape hadd
        rw [hq, ha, hi]
        simp only [List.length_append, List.length_singleton]
        omega
  · intro q k res hres p hp
    unfold FaissQAVectorStore.search at hres
    split at hres
    · cases hres; cases hp
    · split at hres
      · cases hres
      · split at hres
        · cases hres
          obtain ⟨x, hx, hxp⟩ := List.mem_map.mp hp
          have hx2 : x ∈ List.insertionSort
              (fun x y => cosSimGe q x.1 y.1 = true) s.entries :=
            List.take_subset _ _ hx
          have hx3 : x ∈ s.entries := (List.mem_insertionSort _).mp hx2
          unfold FaissQAVectorStore.entries at hx3
          rw [← hxp]
          exact (List.of_mem_zip hx3).2
        · cases hres

/-- C5 witness: the invariant instantiated at the reachable one-entry
store obtained by a single successful `add` on the fresh store. -/
theorem C5_index_text_parallel_invariant_witness :
    ((FaissQAVectorStore.mk ["q"] ["a"] [[1]] (some 1)).index.length =
        (FaissQAVectorStore.mk ["q"] ["a"] [[1]] (some 1)).questions.length ∧
      (FaissQAVectorStore.mk ["q"] ["a"] [[1]] (some 1)).questions.length =
        (FaissQAVectorStore.mk ["q"] ["a"] [[1]] (some 1)).answers.length) ∧
    (∀ (q : List ℚ) (k : ℕ) (res : List (String × String)),
      (FaissQAVectorStore.mk ["q"] ["a"] [[1]] (some 1)).search q k = some res →
      ∀ p ∈ res,
        p ∈ (FaissQAVectorStore.mk ["q"] ["a"] [[1]] (some 1)).questions.zip
          (FaissQAVectorStore.mk ["q"] ["a"] [[1]] (some 1)).answers) :=
  C5_index_text_parallel_invariant _ (Reachable.add Reachable.init rfl)

/-- C6: `search` never returns more than `min(top_k, stored entries)`
results, and on an empty store it returns the empty list rather than
failing. -/
theorem C6_search_result_bound (s : FaissQAVectorStore) (q : List ℚ) (k : ℕ) :
    (∀ res : List (String × String),
      s.search q k = some res → res.length ≤ min k s.index.length) ∧
    (s.is_empty = true → s.search q k = some []) := by
  constructor
  · intro res hres
    unfold FaissQAVectorStore.search at hres
    split at hres
    · cases hres; exact Nat.zero_le _
    · split at hres
      · cases hres
      · split at hres
        · cases hres
          simp only [List.length_map, List.length_take, List.length_insertionSort]
          exact min_le_left _ _
        · cases hres
  · intro he
    unfold FaissQAVectorStore.search
    rw [if_pos he]

/-- C6 witness: a search on the concrete one-entry store stays within the
bound, and the fresh empty store answers every query with `[]`. -/
theorem C6_search_result_bound_witness :
    ([("q", "a")] : List (String × String)).length ≤
        min 5 (FaissQAVectorStore.mk ["q"] ["a"] [[1]] (some 1)).index.length ∧
    FaissQAVectorStore.empty.search [1, 2] 3 = some [] :=
  ⟨(C6_search_result_bound (FaissQAVectorStore.mk ["q"] ["a"] [[1]] (some 1))
      [1] 5).1 [("q", "a")] (by with_unfolding_all decide),
    (C6_search_result_bound FaissQAVectorStore.empty [1, 2] 3).2 rfl⟩

/-- C7: once the store's dimension is fixed by the first entry, `add`
with an embedding of a different length fails immediately (the faiss
index raises before anything is stored), and any successful `add` leaves
the store's dimension equal to the added embedding's length — no silent
coercion. -/
theorem C7_dimension_mismatch_fatal (s : FaissQAVectorStore)
    (q a : String) (e : List ℚ) (d : ℕ) :
    (s.dim = some d → e.length ≠ d → s.add q a e = none) ∧
    (∀ s', s.add q a e = some s' → s'.dim = some e.length) := by
  constructor
  · intro hd hlen
    unfold FaissQAVectorStore.add
    rw [hd]
    simp only [if_neg hlen]
  · intro s' h
    unfold FaissQAVectorStore.add at h
    split at h
    · cases h; rfl
    · rename_i d' hd'
      split at h
      · rename_i hlen
        cases h
        simp [hlen]
      · cases h

/-- C7 witness: adding a 2-dimensional embedding to the concrete store of
dimension 1 fails. -/
theorem C7_dimension_mismatch_fatal_witness :
    (FaissQAVectorStore.mk ["q"] ["a"] [[1]] (some 1)).add "x" "y" [1, 2] = none :=
  (C7_dimension_mismatch_fatal (FaissQAVectorStore.mk ["q"] ["a"] [[1]] (some 1))
    "x" "y" [1, 2] 1).1 rfl (by decide)

/-- C9: the post-response update appends exactly the two turns
(question as `user` first, then answer as `assistant`) to the
conversation's history, touches no other conversation, and updates the
vector store if and only if the retention heuristic accepts — the
database writes stand regardless of the store sub-step's outcome. -/
theorem C9_update_memories_two_turns_then_retention
    (embed : String → List ℚ) (db : String → List Msg)
    (store : FaissQAVectorStore) (cid question answer : String) :
    ((update_memories_after_response embed db store cid question answer).1 cid =
        db cid ++ [⟨"user", question⟩, ⟨"assistant", answer⟩]) ∧
    (∀ c, c ≠ cid →
      (update_memories_after_response embed db store cid question answer).1 c = db c) ∧
    (should_store_in_vector_memory question answer = true →
      (update_memories_after_response embed db store cid question answer).2 =
        store.add question answer (embed question)) ∧
    (should_store_in_vector_memory question answer = false →
      (update_memories_after_response embed db store cid question answer).2 =
        some store) := by
  refine ⟨?_, ?_, ?_, ?_⟩
  · unfold update_memories_after_response add_message
    simp
  · intro c hc
    unfold update_memories_after_response add_message
    simp [hc]
  · intro h
    unfold update_memories_after_response
    simp [h]
  · intro h
    unfold update_memories_after_response
    simp [h]

/-- C9 witness: on a concrete retained exchange against an empty history
and empty store, the two turns are persisted in order under "c1", the
history of "c2" is untouched, and the entry is added to the store. -/
theorem C9_update_memories_two_turns_then_retention_witness :
    ((update_memories_after_response (fun _ => [1]) (fun _ => [])
        FaissQAVectorStore.empty "c1"
        "What is machine learning and how does it work?"
        "Machine learning is a subset of AI that enables systems to learn from data.").1
        "c1" =
      [⟨"user", "What is machine learning and how does it work?"⟩,
       ⟨"assistant",
        "Machine learning is a subset of AI that enables systems to learn from data."⟩]) ∧
    ((update_memories_after_response (fun _ => [1]) (fun _ => [])
        FaissQAVectorStore.empty "c1"
        "What is machine learning and how does it work?"
        "Machine learning is a subset of AI that enables systems to learn from data.").1
        "c2" = []) ∧
    ((update_memories_after_response (fun _ => [1]) (fun _ => [])
        FaissQAVectorStore.empty "c1"
        "What is machine learning and how does it work?"
        "Machine learning is a subset of AI that enables systems to learn from data.").2 =
      FaissQAVectorStore.empty.add
        "What is machine learning and how does it work?"
        "Machine learning is a subset of AI that enables systems to learn from data." [1]) :=
  ⟨by
    have h := (C9_update_memories_two_turns_then_retention (fun _ => [1]) (fun _ => [])
      FaissQAVectorStore.empty "c1"
      "What is machine learning and how does it work?"
      "Machine learning is a subset of AI that enables systems to learn from data.").1
    simpa using h,
   (C9_update_memories_two_turns_then_retention (fun _ => [1]) (fun _ => [])
      FaissQAVectorStore.empty "c1"
      "What is machine learning and how does it work?"
      "Machine learning is a subset of AI that enables systems to learn from data.").2.1
      "c2" (by decide),
   (C9_update_memories_two_turns_then_retention (fun _ => [1]) (fun _ => [])
      FaissQAVectorStore.empty "c1"
      "What is machine learning and how does it work?"
      "Machine learning is a subset of AI that enables systems to learn from data.").2.2.1
      (by decide)⟩

/-- C1: every message list produced by the prompt assembler starts with a
`system` turn, ends with a `user` turn carrying the input question, and
has at least 2 turns; with an empty semantic store and empty history it
is exactly the two-element list [system instruction, user question]. -/
theorem C1_prompt_assembler_shape (tok : String → ℕ) (embed : String → List ℚ)
    (getMessages : String → List Msg) (store : FaissQAVectorStore)
    (cid question : String) :
    (∀ ms : List Msg,
      build_messages_for_model tok embed getMessages store cid question = some ms →
        ms.head?.map Msg.role = some "system" ∧
        ms.getLast? = some ⟨"user", question⟩ ∧
        2 ≤ ms.length) ∧
    (store.is_empty = true → getMessages cid = [] →
      build_messages_for_model tok embed getMessages store cid question =
        some [⟨"system", SYSTEM_INSTRUCTION⟩, ⟨"user", question⟩]) := by
  constructor
  · intro ms h
    unfold build_messages_for_model at h
    split at h
    · cases h
    · rename_i qaCtx hqa
      cases h
      refine ⟨?_, List.getLast?_concat _, ?_⟩
      · by_cases hemp : qaCtx.isEmpty <;> simp [hemp]
      · by_cases hemp : qaCtx.isEmpty <;> simp [hemp, List.length_append]
  · intro hse hgm
    unfold build_messages_for_model build_vector_memory_context
    rw [if_pos hse, hgm]
    simp [select_recent_messages_within_budget, selectRecentAux]

/-- C1 witness: the spec's end-to-end scenario — empty store, empty
history, question "What is 2+2?" — yields exactly the two-element list. -/
theorem C1_prompt_assembler_shape_witness :
    build_messages_for_model String.length (fun _ => [1]) (fun _ => [])
      FaissQAVectorStore.empty "conv1" "What is 2+2?" =
      some [⟨"system", SYSTEM_INSTRUCTION⟩, ⟨"user", "What is 2+2?"⟩] :=
  (C1_prompt_assembler_shape String.length (fun _ => [1]) (fun _ => [])
    FaissQAVectorStore.empty "conv1" "What is 2+2?").2 rfl rfl

lemma dotQ_cons (x y : ℚ) (u v : List ℚ) :
    dotQ (x :: u) (y :: v) = x * y + dotQ u v := by
  simp [dotQ]

lemma normSq_nonneg (u : List ℚ) : 0 ≤ normSq u := by
  induction u with
  | nil => simp [normSq, dotQ]
  | cons x u ih =>
      unfold normSq at *
      rw [dotQ_cons]
      nlinarith [mul_self_nonneg x]

/-- Cauchy–Schwarz for the list inner product. -/
lemma dotQ_sq_le (u : List ℚ) : ∀ v : List ℚ, dotQ u v ^ 2 ≤ normSq u * normSq v := by
  induction u with
  | nil => intro v; simp [dotQ, normSq]
  | cons x u ih =>
      intro v
      cases v with
      | nil => simp [dotQ, normSq]
      | cons y v =>
          have h := ih v
          have hU := normSq_nonneg u
          have hV := normSq_nonneg v
          unfold normSq at *
          rw [dotQ_cons, dotQ_cons, dotQ_cons]
          rcases eq_or_lt_of_le hV with hV0 | hV0
          · have hD : dotQ u v = 0 := by nlinarith [sq_nonneg (dotQ u v)]
            rw [hD, ← hV0]
            nlinarith [sq_nonneg y, sq_nonneg (x * y)]
          · nlinarith [sq_nonneg (x * (dotQ v v) - y * (dotQ u v)), sq_nonneg y]

lemma simGe_total (a p b r : ℚ) : simGe a p b r = true ∨ simGe b r a p = true := by
  simp only [simGe]
  by_cases hA0 : (if p = 0 then (0:ℚ) else a) < 0 <;>
    by_cases hB0 : (if r = 0 then (0:ℚ) else b) < 0
  · rw [if_pos hB0, if_neg (not_le.mpr hA0), if_pos hA0, if_neg (not_le.mpr hB0)]
    simp only [decide_eq_true_eq]
    exact le_total _ _
  · rw [if_neg hB0, if_pos hA0, if_pos hA0, if_pos (not_lt.mp hB0)]
    right; rfl
  · rw [if_pos hB0, if_pos (not_lt.mp hA0)]
    left; rfl
  · rw [if_neg hB0, if_neg hA0, if_neg hA0, if_neg hB0]
    simp only [decide_eq_true_eq]
    exact (le_total _ _).symm

lemma cosSimGe_total (q u v : List ℚ) :
    cosSimGe q u v = true ∨ cosSimGe q v u = true := by
  unfold cosSimGe
  by_cases hq : normSq q = 0
  · rw [if_pos hq]; left; rfl
  · rw [if_neg hq, if_neg hq]
    exact simGe_total _ _ _ _

/-- Cosine similarity of a query with the entry holding that very vector
is maximal: `cos(q,q) ≥ cos(q,u)` for every stored vector `u`. -/
lemma cosSimGe_self_max (q u : List ℚ) : cosSimGe q q u = true := by
  unfold cosSimGe
  by_cases hP : normSq q = 0
  · rw [if_pos hP]
  · rw [if_neg hP]
    have hPpos : 0 < normSq q := lt_of_le_of_ne (normSq_nonneg q) (Ne.symm hP)
    simp only [simGe, if_neg hP]
    have hself : dotQ q q = normSq q := rfl
    rw [hself]
    by_cases hB0 : (if normSq u = 0 then (0:ℚ) else dotQ q u) < 0
    · rw [if_pos hB0, if_pos (le_of_lt hPpos)]
    · rw [if_neg hB0, if_neg (not_lt.mpr (le_of_lt hPpos))]
      simp only [decide_eq_true_eq]
      by_cases hu : normSq u = 0
      · rw [if_pos hu, if_pos hu]
        nlinarith [hPpos]
      · rw [if_neg hu, if_neg hu]
        have hcs := dotQ_sq_le q u
        have hupos : 0 < normSq u :=
          lt_of_le_of_ne (normSq_nonneg u) (Ne.symm hu)
        nlinarith [hcs, hPpos, hupos]

/-- Head of the search's stable insertion sort when one entry strictly
dominates every other in cosine similarity to the query: it ends up
first. -/
lemma insertionSort_head_strict_max (q : List ℚ) :
    ∀ (l : List (List ℚ × (String × String))) (e : List ℚ × (String × String)),
      e ∈ l →
      (∀ x ∈ l, x = e ∨ cosSimGe q x.1 e.1 = false) →
      (List.insertionSort (fun x y => cosSimGe q x.1 y.1 = true) l).head? = some e := by
  intro l
  induction l with
  | nil => intro e he; cases he
  | cons a l ih =>
      intro e he hmax
      simp only [List.insertionSort]
      by_cases hae : a = e
      · subst hae
        cases hs : List.insertionSort (fun x y => cosSimGe q x.1 y.1 = true) l with
        | nil => simp [List.orderedInsert]
        | cons b t =>
            have hb : b ∈ l := by
              have hmem : b ∈ List.insertionSort
                  (fun x y => cosSimGe q x.1 y.1 = true) l := by
                rw [hs]; exact List.mem_cons_self _ _
              exact (List.mem_insertionSort _).mp hmem
            have hrab : cosSimGe q a.1 b.1 = true := by
              rcases hmax b (List.mem_cons_of_mem _ hb) with hbe | hbf
              · subst hbe
                rcases cosSimGe_total q b.1 b.1 with h | h <;> exact h
              · rcases cosSimGe_total q a.1 b.1 with h | h
                · exact h
                · rw [h] at hbf; cases hbf
            simp [List.orderedInsert, hrab]
      · have he' : e ∈ l := by
          rcases List.mem_cons.mp he with h | h
          · exact absurd h.symm hae
          · exact h
        have ihh := ih e he' (fun x hx => hmax x (List.mem_cons_of_mem _ hx))
        cases hs : List.insertionSort (fun x y => cosSimGe q x.1 y.1 = true) l with
        | nil => rw [hs] at ihh; cases ihh
        | cons b t =>
            rw [hs] at ihh
            simp only [List.head?_cons, Option.some.injEq] at ihh
            subst ihh
            have hra : cosSimGe q a.1 b.1 = false := by
              rcases hmax a (List.mem_cons_self _ _) with h | h
              · exact absurd h hae
              · exact h
            simp [List.orderedInsert, hra]

/-- C3 (amended): querying the store with a stored entry's embedding
ranks that entry's exact (question, answer) pair first, provided every
other stored entry has strictly smaller cosine similarity to the query
(e.g. no second entry with the same embedding direction); in addition,
self-similarity is always maximal: `cos(e,e) ≥ cos(e,u)` for every stored
vector `u`, which is why the dominance hypothesis can only fail through
ties. -/
theorem C3_search_with_stored_embedding (s : FaissQAVectorStore)
    (e : List ℚ × (String × String)) (he : e ∈ s.entries)
    (hd : s.dim = some e.1.length)
    (top_k : ℕ) (hk : s.index.length ≤ top_k)
    (hmax : ∀ x ∈ s.entries, x = e ∨ cosSimGe e.1 x.1 e.1 = false) :
    (∀ x ∈ s.entries, cosSimGe e.1 e.1 x.1 = true) ∧
    ∃ rest, s.search e.1 top_k = some (e.2 :: rest) := by
  constructor
  · intro x _
    exact cosSimGe_self_max e.1 x.1
  · have hidx : s.index ≠ [] := by
      intro h0
      rw [FaissQAVectorStore.entries, h0] at he
      cases he
    have hne : ¬ (s.is_empty = true) := by
      unfold FaissQAVectorStore.is_empty
      rw [hd]
      simp [hidx]
    have hsearch : s.search e.1 top_k =
        some ((List.take (min top_k s.index.length)
          (List.insertionSort (fun x y => cosSimGe e.1 x.1 y.1 = true)
            s.entries)).map (·.2)) := by
      unfold FaissQAVectorStore.search
      rw [if_neg hne, hd]
      simp
    have hhead :
        (List.insertionSort (fun x y => cosSimGe e.1 x.1 y.1 = true)
          s.entries).head? = some e :=
      insertionSort_head_strict_max e.1 s.entries e he hmax
    have hmin : min top_k s.index.length = s.index.length := min_eq_right hk
    cases hsorted : List.insertionSort (fun x y => cosSimGe e.1 x.1 y.1 = true)
        s.entries with
    | nil => rw [hsorted] at hhead; cases hhead
    | cons b t =>
        rw [hsorted] at hhead
        simp only [List.head?_cons, Option.some.injEq] at hhead
        subst hhead
        cases hlen : s.index.length with
        | zero => exact absurd (List.length_eq_zero.mp hlen) hidx
        | succ n =>
            refine ⟨(List.take n t).map (·.2), ?_⟩
            rw [hsearch, hsorted, hmin, hlen]
            simp

/-- C3 counterexample: the claim fails as stated when two entries share
an embedding.  The store built by adding ("q1","a1") and then
("q2","a2") under the same embedding `[1]`, searched with `[1]` (the
stored embedding of the second entry) and `top_k = 2`, does not rank the
second entry's pair first: both entries are tied at cosine similarity 1
and at most one of them can be first (insertion order in the model). -/
theorem C3_search_with_stored_embedding_counterexample :
    FaissQAVectorStore.empty.add "q1" "a1" [1] =
      some (FaissQAVectorStore.mk ["q1"] ["a1"] [[1]] (some 1)) ∧
    (FaissQAVectorStore.mk ["q1"] ["a1"] [[1]] (some 1)).add "q2" "a2" [1] =
      some (FaissQAVectorStore.mk ["q1", "q2"] ["a1", "a2"] [[1], [1]] (some 1)) ∧
    (FaissQAVectorStore.mk ["q1", "q2"] ["a1", "a2"] [[1], [1]] (some 1)).search
        [1] 2 = some [("q1", "a1"), ("q2", "a2")] ∧
    ("q1", "a1") ≠ (("q2", "a2") : String × String) := by
  refine ⟨rfl, by decide, by with_unfolding_all decide, by decide⟩

/-- C3 witness: on a two-entry store with embeddings [1,0] and [3,4]
(distinct directions), querying with the second entry's stored embedding
returns ("q2","a2") ranked first. -/
theorem C3_search_with_stored_embedding_witness :
    (∀ x ∈ (FaissQAVectorStore.mk ["q1", "q2"] ["a1", "a2"]
        [[1, 0], [3, 4]] (some 2)).entries,
      cosSimGe [3, 4] [3, 4] x.1 = true) ∧
    ∃ rest, (FaissQAVectorStore.mk ["q1", "q2"] ["a1", "a2"]
        [[1, 0], [3, 4]] (some 2)).search [3, 4] 5 =
      some (("q2", "a2") :: rest) :=
  C3_search_with_stored_embedding
    (FaissQAVectorStore.mk ["q1", "q2"] ["a1", "a2"] [[1, 0], [3, 4]] (some 2))
    ([3, 4], ("q2", "a2"))
    (by with_unfolding_all decide) rfl 5 (by decide)
    (by with_unfolding_all decide)

end LLMAgent
